import Mathlib

/-!
Verification of the collaborative code editor relay server: a shallow
embedding of the WebSocket message router, the file/version persistence
gateway, the broadcast fanout and the AI-completion retry pipeline from
src/backend/server.ts together with the mongoose schemas of
src/unnamed/part_001 and the Gemini deployment variant of
src/unnamed/part_002.

Database documents are modelled as in-memory lists of records, the mongoose
object ids as a counter carried by the store, and wall-clock time as a
natural-number clock that advances on every save.  External effects (the
document store call underlying the file listing, the generation endpoint of
the completion client) are parameters of the embedded functions, so that a
failing collaborator is an explicit input rather than an exception.
-/

namespace Collab

/-- A persisted file document (mongoose `File` model of part_001):
`filename` (unique), `content`, `lastModified`; `_id` is modelled as `id`. -/
structure FileDoc where
  id : Nat
  filename : String
  content : String
  lastModified : Nat
deriving DecidableEq

/-- A version snapshot (mongoose `Version` model of part_001): owning file
reference, snapshotted content, per-document version number, timestamp. -/
structure VersionDoc where
  id : Nat
  fileId : Nat
  content : String
  version : Nat
  timestamp : Nat
deriving DecidableEq

/-- The document store: the `File` and `Version` collections, the object-id
counter and the current clock. -/
structure Store where
  files : List FileDoc
  versions : List VersionDoc
  nextId : Nat
  now : Nat
deriving DecidableEq

/-- Fault taxonomy of the persistence gateway. -/
inductive DbFault where
  | storage : DbFault
  | notFound : DbFault
deriving DecidableEq

/-- `saveFile` (server.ts lines 76-106).  `File.findOne({filename})` is the
first list entry with that filename; if a document exists, a `Version` record
is created first, copying the pre-overwrite content and numbering it
`Version.countDocuments({fileId}) + 1`, then the document's content and
`lastModified` are overwritten; otherwise a fresh document is created.  The
saved document is returned alongside the updated store. -/
def saveFile (s : Store) (filename content : String) : Store × FileDoc :=
  match s.files.find? (fun f => f.filename == filename) with
  | some file =>
      let newVersion : VersionDoc :=
        { id := s.nextId
          fileId := file.id
          content := file.content
          version := (s.versions.filter (fun v => v.fileId == file.id)).length + 1
          timestamp := s.now }
      let updated : FileDoc :=
        { file with content := content, lastModified := s.now }
      ({ s with
          versions := s.versions ++ [newVersion]
          files := s.files.map (fun f => if f.id = file.id then updated else f)
          nextId := s.nextId + 1
          now := s.now + 1 }, updated)
  | none =>
      let doc : FileDoc :=
        { id := s.nextId, filename := filename, content := content, lastModified := s.now }
      ({ s with
          files := s.files ++ [doc]
          nextId := s.nextId + 1
          now := s.now + 1 }, doc)

/-- Iterated sequential saves of the given contents to one filename. -/
def seqSaves (s : Store) (filename : String) : List String → Store
  | [] => s
  | c :: cs => seqSaves (saveFile s filename c).1 filename cs

/-- The version numbers recorded for the document with id `fid`, in store
order (insertion order, since versions are only ever appended). -/
def docVersions (s : Store) (fid : Nat) : List Nat :=
  (s.versions.filter (fun v => v.fileId == fid)).map (fun v => v.version)

/-- Concrete filename used by the witness stores. -/
def wName : String := "a"

/-- Concrete store with no document named `wName`. -/
def wStoreNone : Store := { files := [], versions := [], nextId := 0, now := 0 }

/-- Concrete pre-existing document used by the witness. -/
def wFile : FileDoc := { id := 0, filename := "a", content := "old", lastModified := 0 }

/-- Concrete store holding `wFile`. -/
def wStoreSome : Store := { files := [wFile], versions := [], nextId := 1, now := 5 }

/-- Concrete content used by the witnesses. -/
def wNew : String := "new"

/-- Concrete remaining contents for the sequential-save witness. -/
def wTail : List String := ["y", "z"]

/-- The backtick character (written by code point to keep fence markers out of
the source text). -/
def tick : Char := Char.ofNat 96

/-- Is this character a backtick? -/
def isTick (c : Char) : Bool := c == tick

/-- JS regex word character class (ASCII letters, digits, underscore). -/
def isWordChar (c : Char) : Bool := c.isAlphanum || c == '_'

/-- ASCII whitespace as matched by the JS whitespace class and by
`String.prototype.trim` (tab, newline, vertical tab, form feed, carriage
return, space; the Unicode space characters are not modelled). -/
def isJsSpace (c : Char) : Bool :=
  c == ' ' || c == '\t' || c == '\n' || c == '\r' || c == '\x0b' || c == '\x0c'

/-- Does the character list start with three backticks? -/
def startsWithTicks3 : List Char → Bool
  | a :: b :: c :: _ => isTick a && isTick b && isTick c
  | _ => false

/-- After a consumed fence opener: drop the greedy run of word characters (the
language tag) and then one optional newline — the tail of the regex that
matches a fence with optional language tag and optional newline. -/
def afterFence : List Char → List Char
  | [] => []
  | c :: cs =>
      if isWordChar c then afterFence cs
      else if c == '\n' then cs
      else c :: cs

/-- First cleanup replace of the response (server.ts line 236): strip one
leading fence with optional language tag and optional newline (anchored). -/
def stripLead (l : List Char) : List Char :=
  if startsWithTicks3 l then afterFence (l.drop 3) else l

/-- Helper for the trailing replace, on the reversed character list. -/
def stripTrailRev (l : List Char) : List Char :=
  match l with
  | a :: b :: c :: d :: rest =>
      if isTick a && isTick b && isTick c then
        if d == '\n' then rest else d :: rest
      else l
  | a :: b :: c :: rest =>
      if isTick a && isTick b && isTick c then rest else l
  | _ => l

/-- Second cleanup replace (server.ts line 237): strip one trailing fence with
an optional newline before it (anchored at the end; the leftmost match of the
end-anchored pattern is exactly the longest such suffix). -/
def stripTrail (l : List Char) : List Char :=
  (stripTrailRev l.reverse).reverse

/-- Third cleanup replace (server.ts line 238, global): scanning left to
right, remove every fence together with its greedy language tag and one
optional newline.  Fuel counts remaining scan steps; it starts at the list
length, which bounds the number of steps since every step consumes at least
one character. -/
def stripG1Fuel : Nat → List Char → List Char
  | 0, l => l
  | _ + 1, [] => []
  | fuel + 1, a :: rest =>
      if startsWithTicks3 (a :: rest) then stripG1Fuel fuel (afterFence (rest.drop 2))
      else a :: stripG1Fuel fuel rest

/-- Fourth cleanup replace (server.ts line 239, global): scanning left to
right, remove every fence together with one optional newline before it.  Fuel
counts remaining scan steps, starting at the list length. -/
def stripG2Fuel : Nat → List Char → List Char
  | 0, l => l
  | _ + 1, [] => []
  | fuel + 1, a :: rest =>
      if a == '\n' && startsWithTicks3 rest then stripG2Fuel fuel (rest.drop 3)
      else if startsWithTicks3 (a :: rest) then stripG2Fuel fuel (rest.drop 2)
      else a :: stripG2Fuel fuel rest

/-- JS `trim`: drop whitespace from both ends. -/
def trimChars (l : List Char) : List Char :=
  ((l.dropWhile isJsSpace).reverse.dropWhile isJsSpace).reverse

/-- The response cleanup chain of the completion client (server.ts lines
235-240 and part_002 lines 199-204): the four fence-stripping replaces
followed by `trim`. -/
def cleanResponse (s : String) : String :=
  let l1 := stripLead s.data
  let l2 := stripTrail l1
  let l3 := stripG1Fuel l2.length l2
  let l4 := stripG2Fuel l3.length l3
  String.mk (trimChars l4)

/-- Concrete fenced response of the cleanup claim. -/
def fencedJava : String := "\x60\x60\x60java\nfoo();\n\x60\x60\x60"

/-- JS `split` on a newline: cut the character list at every newline; an empty
input gives one empty piece, a trailing newline a trailing empty piece. -/
def splitNl : List Char → List (List Char)
  | [] => [[]]
  | c :: rest =>
      if c == '\n' then [] :: splitNl rest
      else
        match splitNl rest with
        | [] => [[c]]
        | l :: ls => (c :: l) :: ls

/-- JS `join` with a newline separator. -/
def joinNl (ls : List (List Char)) : List Char :=
  List.intercalate ['\n'] ls

/-- A line is blank when `line.trim()` is empty, i.e. every character is
whitespace. -/
def isBlankLine (l : List Char) : Bool := l.all isJsSpace

/-- The length of the leading-whitespace run of a line — the match length of
the anchored whitespace-run regex used to measure indentation. -/
def leadingWsCount (l : List Char) : Nat := (l.takeWhile isJsSpace).length

/-- `Math.min` over a spread list, used only on non-empty lists (on the empty
list JS yields Infinity, which the surrounding code never consumes; the
placeholder 0 here is likewise never consumed). -/
def jsMin : List Nat → Nat
  | [] => 0
  | x :: rest => rest.foldl Nat.min x

/-- `formatCode` (server.ts lines 147-162, part_002 lines 147-166): drop every
blank line, measure the minimum indentation over the (already filtered) lines,
cut that many leading characters from every line and rejoin. -/
def formatCode (code : String) : String :=
  let lines := (splitNl code.data).filter (fun l => !(isBlankLine l))
  let minIndent := jsMin ((lines.filter (fun l => !(isBlankLine l))).map leadingWsCount)
  String.mk (joinNl (lines.map (fun l => l.drop minIndent)))

/-- `getLineIndentation` helper loop (server.ts lines 169-176): walk the
lines, accumulating position (line length + 1 for the newline), and on the
line containing the cursor count its leading spaces. -/
def lineIndentGo (cursorPosition : Nat) : List (List Char) → Nat → Nat
  | [], _ => 0
  | line :: rest, currentPos =>
      let nextPos := currentPos + line.length + 1
      if cursorPosition < nextPos then (line.takeWhile (fun c => c == ' ')).length
      else lineIndentGo cursorPosition rest nextPos

/-- `getLineIndentation` (server.ts lines 164-178). -/
def getLineIndentation (content : String) (cursorPosition : Nat) : Nat :=
  lineIndentGo cursorPosition (splitNl content.data) 0

/-- `indentCode` (server.ts lines 180-186): prepend the base indentation to
every non-blank line; blank lines become empty. -/
def indentCode (code : String) (baseIndentation : Nat) : String :=
  String.mk (joinNl ((splitNl code.data).map
    (fun l => if isBlankLine l then [] else List.replicate baseIndentation ' ' ++ l)))

/-- The voice / inline prompt built by the Ollama variant (server.ts lines
201-216). -/
def ollamaPrompt (content prompt language : String) (isVoicePrompt : Bool) : String :=
  if isVoicePrompt then
    "Given this " ++ language ++ " code:\n" ++ content ++
    "\n\nThe cursor is marked with |CURSOR|. \nVoice command: \"" ++ prompt ++
    "\"\n\nReturn only the code that should be inserted at the cursor position (|CURSOR|).\nNo explanations, no backticks, just the code to insert."
  else
    "Given this " ++ language ++ " code:\n" ++ content ++
    "\n\nThe text \"" ++ prompt ++
    "\" in the code should be replaced with appropriate code.\nReturn only the code that should replace \"" ++ prompt ++
    "\".\nNo explanations, no backticks, just the replacement code."

/-- The prompt built by the Gemini variant (part_002 lines 175-192). -/
def geminiPrompt (content prompt language : String) : String :=
  "You are a helpful coding assistant. The user is writing " ++ language ++
  " code and needs help implementing a specific feature.\n\nCurrent code context:\n" ++
  content ++ "\n\nUser's request: \"" ++ prompt ++
  "\"\n\nRules:\n1. Provide ONLY the implementation code, no explanations\n2. Keep the code simple and conventional\n3. Don't include function/class declarations unless specifically requested\n4. Don't include code block markers or comments\n5. The code should be ready to directly insert into the existing codebase\n6. Focus on standard library solutions when possible\n7. Maintain consistent indentation using spaces\n8. Start the code at the base indentation level (no leading spaces)\n\nPlease provide the implementation:"

/-- The sentinel error string returned on retry exhaustion — it travels
through the same `String` success channel as a normal completion. -/
def completionErrMsg (maxRetries : Nat) : String :=
  "Error: Unable to get AI code completion after " ++ toString maxRetries ++ " attempts."

/-- Observable outcome of one completion call: the returned string, the number
of endpoint attempts actually made, and the backoff delays awaited (in
milliseconds, in order; the k-th entry precedes attempt k+1). -/
structure CompletionTrace where
  result : String
  attempts : Nat
  delays : List Nat
deriving DecidableEq

/-- The retry loop of `getAICodeCompletion` (server.ts lines 195-260, part_002
lines 169-222).  `endpoint n` is the outcome of the n-th attempt (`none`
models any thrown failure: network error, non-success status, malformed
response); `post` is the per-variant post-processing of a successful raw
response.  `fuel` is `maxRetries - retries`, the number of loop iterations
still permitted by `while (retries < maxRetries)`: on a failure the counter is
incremented and either the sentinel is returned (when the retry budget is
exhausted — with no further delay) or a 1000 ms delay is recorded and the
loop continues.  The `fuel = 0` case is the `return 'Error'` after the loop. -/
def completionGo (endpoint : Nat → Option String) (post : String → String)
    (maxRetries : Nat) : Nat → Nat → Nat → List Nat → CompletionTrace
  | 0, _, attempts, delays => { result := "Error", attempts := attempts, delays := delays }
  | fuel + 1, retries, attempts, delays =>
      match endpoint retries with
      | some raw => { result := post raw, attempts := attempts + 1, delays := delays }
      | none =>
          if fuel = 0 then
            { result := completionErrMsg maxRetries, attempts := attempts + 1, delays := delays }
          else
            completionGo endpoint post maxRetries fuel (retries + 1) (attempts + 1)
              (delays ++ [1000])

/-- Post-processing of the Ollama variant (server.ts lines 235-246): clean the
response; when a cursor position was supplied, re-indent the cleaned snippet
to the indentation of the cursor's source line. -/
def ollamaPost (content : String) (cursorPosition : Option Nat) (raw : String) : String :=
  match cursorPosition with
  | some cp => indentCode (cleanResponse raw) (getLineIndentation content cp)
  | none => cleanResponse raw

/-- `getAICodeCompletion`, Ollama deployment variant (server.ts lines
188-261): `maxRetries = 3`, prompt as built by `ollamaPrompt`, response
cleaned and optionally cursor-indented. -/
def getAICodeCompletionOllama (endpoint : String → Nat → Option String)
    (content prompt language : String) (isVoicePrompt : Bool)
    (cursorPosition : Option Nat) : CompletionTrace :=
  completionGo (fun n => endpoint (ollamaPrompt content prompt language isVoicePrompt) n)
    (ollamaPost content cursorPosition) 3 3 0 0 []

/-- `getAICodeCompletion`, Gemini deployment variant (part_002 lines 168-223):
`maxRetries = 100`, prompt as built by `geminiPrompt`, response cleaned and
then reflowed by `formatCode`. -/
def getAICodeCompletionGemini (endpoint : String → Nat → Option String)
    (content prompt language : String) : CompletionTrace :=
  completionGo (fun n => endpoint (geminiPrompt content prompt language) n)
    (fun raw => formatCode (cleanResponse raw)) 100 100 0 0 []

/-- Concrete raw response for the retry witness. -/
def wRaw : String := "z"

/-- Concrete endpoint failing twice, then succeeding. -/
def wEndpoint : String → Nat → Option String := fun _ n => if n == 2 then some wRaw else none

/-- WebSocket transport states (CONNECTING/OPEN/CLOSING/CLOSED); `opened`
stands for `WebSocket.OPEN`. -/
inductive ReadyState where
  | connecting : ReadyState
  | opened : ReadyState
  | closing : ReadyState
  | closed : ReadyState
deriving DecidableEq

/-- One connected session: its transport state and the messages delivered to
it (`α` is the message payload type — serialized strings at the fanout
boundary, structured messages inside the router model). -/
structure Client (α : Type) where
  readyState : ReadyState
  inbox : List α
deriving DecidableEq

/-- `broadcastToAll` (server.ts lines 129-135): deliver the message to every
session whose transport is open; silently skip every other session.  A total
function — a skipped session raises no fault. -/
def broadcastToAll {α : Type} (clients : List (Client α)) (message : α) : List (Client α) :=
  clients.map (fun c =>
    if c.readyState = ReadyState.opened then { c with inbox := c.inbox ++ [message] } else c)

/-- `ws.send` to one designated session (by position). -/
def sendTo {α : Type} (clients : List (Client α)) (i : Nat) (msg : α) : List (Client α) :=
  match clients.get? i with
  | some c => clients.set i { c with inbox := c.inbox ++ [msg] }
  | none => clients

/-- Concrete three-session pool — two open transports around a closed one. -/
def wSessions : List (Client String) :=
  [{ readyState := ReadyState.opened, inbox := [] },
   { readyState := ReadyState.closed, inbox := [] },
   { readyState := ReadyState.opened, inbox := [] }]

/-- Concrete broadcast payload. -/
def wMsg : String := "m"

/-- `getFiles` (server.ts lines 108-116): project every stored document to its
filename; any storage fault is swallowed and mapped to the empty list.  The
outcome of the underlying `File.find()` call is the explicit argument. -/
def getFiles (findResult : Except DbFault (List FileDoc)) : List String :=
  match findResult with
  | Except.ok files => files.map (fun f => f.filename)
  | Except.error _ => []

/-- The non-blank lines of a snippet, in order (shared by the statement of the
reflow theorem). -/
def nonBlankLines (code : String) : List (List Char) :=
  (splitNl code.data).filter (fun l => !(isBlankLine l))

/-- The claim's reading of legacy reflow, modelled from the spec's words:
every non-blank line has exactly the minimum indentation removed and the
snippet is OTHERWISE UNCHANGED — in particular blank lines survive. -/
def formatCodeClaimed (code : String) : String :=
  String.mk (joinNl ((splitNl code.data).map
    (fun l => if isBlankLine l then l
      else l.drop (jsMin ((nonBlankLines code).map leadingWsCount)))))

/-- Concrete snippet with an interior blank line. -/
def wSnippet : String := "a\n\nb"

/-- `loadFile` (server.ts lines 118-127): content of the named document, or a
NotFound fault (the catch block rethrows). -/
def loadFile (s : Store) (filename : String) : Except DbFault String :=
  match s.files.find? (fun f => f.filename == filename) with
  | none => Except.error DbFault.notFound
  | some f => Except.ok f.content

/-- `loadVersion` (server.ts lines 279-288): content of one version looked up
by its identity, or a NotFound fault. -/
def loadVersion (s : Store) (versionId : Nat) : Except DbFault String :=
  match s.versions.find? (fun v => v.id == versionId) with
  | none => Except.error DbFault.notFound
  | some v => Except.ok v.content

/-- Descending order on version numbers, as requested from the store by
`sort({ version: -1 })`. -/
def versionGe (v w : VersionDoc) : Prop := w.version ≤ v.version

instance : DecidableRel versionGe :=
  fun v w => inferInstanceAs (Decidable (w.version ≤ v.version))

instance : IsTotal VersionDoc versionGe :=
  ⟨fun a b => Nat.le_total b.version a.version⟩

instance : IsTrans VersionDoc versionGe :=
  ⟨fun _ _ _ h1 h2 => Nat.le_trans h2 h1⟩

/-- The store's descending sort of a version list. -/
def sortVersionsDesc (vs : List VersionDoc) : List VersionDoc :=
  List.insertionSort versionGe vs

/-- `getFileVersions` (server.ts lines 263-277): find the document, collect
its versions sorted descending by version number, and select version number
and timestamp of each; NotFound when the document is absent. -/
def getFileVersions (s : Store) (filename : String) : Except DbFault (List (Nat × Nat)) :=
  match s.files.find? (fun f => f.filename == filename) with
  | none => Except.error DbFault.notFound
  | some file =>
      Except.ok ((sortVersionsDesc (s.versions.filter (fun v => v.fileId == file.id))).map
        (fun v => (v.version, v.timestamp)))

/-- Concrete versions for the version-listing witness. -/
def wVer1 : VersionDoc := { id := 1, fileId := 0, content := "c1", version := 1, timestamp := 10 }

/-- Second concrete version. -/
def wVer2 : VersionDoc := { id := 2, fileId := 0, content := "c2", version := 2, timestamp := 20 }

/-- Concrete store holding a document and two of its versions. -/
def wStoreVers : Store := { files := [wFile], versions := [wVer1, wVer2], nextId := 3, now := 9 }

/-- An outbound message (the JSON object passed to `JSON.stringify` before
sending; serialization is modelled as the structured record itself). -/
structure OutMsg where
  type : String
  content : String
  filename : String
  files : List String
  versions : List (Nat × Nat)
deriving DecidableEq

/-- `TEXT_UPDATED` broadcast payload. -/
def textUpdatedMsg (content : String) : OutMsg :=
  { type := "TEXT_UPDATED", content := content, filename := "", files := [], versions := [] }

/-- `FILE_SAVED` broadcast payload. -/
def fileSavedMsg (filename : String) : OutMsg :=
  { type := "FILE_SAVED", content := "", filename := filename, files := [], versions := [] }

/-- `FILE_LIST` payload. -/
def fileListMsg (files : List String) : OutMsg :=
  { type := "FILE_LIST", content := "", filename := "", files := files, versions := [] }

/-- `FILE_LOADED` payload. -/
def fileLoadedMsg (filename content : String) : OutMsg :=
  { type := "FILE_LOADED", content := content, filename := filename, files := [], versions := [] }

/-- `FILE_VERSIONS` payload. -/
def fileVersionsMsg (versions : List (Nat × Nat)) : OutMsg :=
  { type := "FILE_VERSIONS", content := "", filename := "", files := [], versions := versions }

/-- `AI_CODE_COMPLETION` response payload. -/
def aiCompletionMsg (content : String) : OutMsg :=
  { type := "AI_CODE_COMPLETION", content := content, filename := "", files := [], versions := [] }

/-- A parsed inbound client message: the `type` discriminator plus the fields
the handlers read (absent JSON fields are modelled by the default-like values
the caller supplies). -/
structure InMsg where
  type : String
  filename : String
  content : String
  prompt : String
  language : String
  isVoicePrompt : Bool
  cursorPosition : Option Nat
  versionId : Nat
deriving DecidableEq

/-- The process-wide server state the router touches: the shared text buffer,
the document store and the connected sessions. -/
structure RouterState where
  textData : String
  store : Store
  clients : List (Client OutMsg)
deriving DecidableEq

/-- The message dispatcher (server.ts lines 30-67): one parsed inbound message
is switched on its `type` tag; `sender` is the position of the session the
message arrived on.  The second component reports a fault thrown by a handler
(uncaught by the router — processing of that message stops, already-performed
sends and mutations stay).  Unrecognized tags fall through the switch:
no handler runs, no message is sent, nothing changes. -/
def handleMessage (endpoint : String → Nat → Option String) (s : RouterState)
    (sender : Nat) (msg : InMsg) : RouterState × Option DbFault :=
  if msg.type = "UPDATE_TEXT" then
    ({ s with
        textData := msg.content
        clients := broadcastToAll s.clients (textUpdatedMsg msg.content) }, none)
  else if msg.type = "SAVE_FILE" then
    let store1 := (saveFile s.store msg.filename msg.content).1
    let cl1 := broadcastToAll s.clients (fileSavedMsg msg.filename)
    let cl2 := broadcastToAll cl1 (fileListMsg (getFiles (Except.ok store1.files)))
    ({ s with store := store1, clients := cl2 }, none)
  else if msg.type = "GET_FILES" then
    ({ s with clients := sendTo s.clients sender (fileListMsg (getFiles (Except.ok s.store.files))) }, none)
  else if msg.type = "LOAD_FILE" then
    match loadFile s.store msg.filename with
    | Except.error e => (s, some e)
    | Except.ok content =>
      let cl1 := sendTo s.clients sender (fileLoadedMsg msg.filename content)
      match getFileVersions s.store msg.filename with
      | Except.error e => ({ s with clients := cl1 }, some e)
      | Except.ok vs => ({ s with clients := sendTo cl1 sender (fileVersionsMsg vs) }, none)
  else if msg.type = "LOAD_VERSION" then
    match loadVersion s.store msg.versionId with
    | Except.error e => (s, some e)
    | Except.ok content =>
      ({ s with clients := sendTo s.clients sender (fileLoadedMsg msg.filename content) }, none)
  else if msg.type = "AI_CODE_COMPLETION" then
    let t := getAICodeCompletionOllama endpoint msg.content msg.prompt msg.language
      msg.isVoicePrompt msg.cursorPosition
    ({ s with clients := sendTo s.clients sender (aiCompletionMsg t.result) }, none)
  else
    (s, none)

/-- Concrete PING message (liveness only). -/
def pingMsg : InMsg :=
  { type := "PING", filename := "", content := "", prompt := "", language := ""
    isVoicePrompt := false, cursorPosition := none, versionId := 0 }

/-- Concrete router state for the PING witness. -/
def wRouterState : RouterState :=
  { textData := "t", store := wStoreVers,
    clients := [{ readyState := ReadyState.opened, inbox := [] }] }

/-- C2: save creates the document when absent (creating no version), and
otherwise first appends a version copying the pre-overwrite content with
number = prior count + 1, then overwrites content and timestamp; in both
cases the saved document is returned. -/
theorem saveFile_case_spec (s : Store) (fname content : String) :
    (s.files.find? (fun f => f.filename == fname) = none →
      (saveFile s fname content).1.versions = s.versions ∧
      ∃ doc : FileDoc,
        (saveFile s fname content).1.files = s.files ++ [doc] ∧
        doc.filename = fname ∧ doc.content = content ∧
        doc.lastModified = s.now ∧
        (saveFile s fname content).2 = doc) ∧
    (∀ file : FileDoc, s.files.find? (fun f => f.filename == fname) = some file →
      (∃ v : VersionDoc,
        (saveFile s fname content).1.versions = s.versions ++ [v] ∧
        v.content = file.content ∧ v.fileId = file.id ∧
        v.version = (s.versions.filter (fun w => w.fileId == file.id)).length + 1) ∧
      ((saveFile s fname content).2.content = content ∧
       (saveFile s fname content).2.lastModified = s.now ∧
       (saveFile s fname content).2.id = file.id ∧
       (saveFile s fname content).2.filename = file.filename) ∧
      (saveFile s fname content).1.files =
        s.files.map (fun f => if f.id = file.id then (saveFile s fname content).2 else f)) := by
  constructor
  · intro hnone
    refine ⟨?_, ⟨{ id := s.nextId, filename := fname, content := content, lastModified := s.now }, ?_, rfl, rfl, rfl, ?_⟩⟩ <;> simp only [saveFile, hnone]
  · intro file hsome
    refine ⟨⟨{ id := s.nextId, fileId := file.id, content := file.content, version := (s.versions.filter (fun v => v.fileId == file.id)).length + 1, timestamp := s.now }, ?_, rfl, rfl, rfl⟩, ⟨?_, ?_, ?_, ?_⟩, ?_⟩ <;> simp only [saveFile, hsome]

/-- If a document is the first match for a filename, then after replacing every
entry carrying its id by `updated` (itself matching the filename), `updated` is
the first match. -/
theorem find?_map_update (fname : String) (file updated : FileDoc)
    (hupd : (updated.filename == fname) = true) :
    ∀ files : List FileDoc,
      files.find? (fun f => f.filename == fname) = some file →
      (files.map (fun f => if f.id = file.id then updated else f)).find?
        (fun f => f.filename == fname) = some updated := by
  intro files
  induction files with
  | nil => intro h; cases h
  | cons g gs ih =>
    intro h
    rw [List.find?_cons] at h
    rw [List.map_cons, List.find?_cons]
    by_cases hg : (g.filename == fname) = true
    · have hgf : g = file := by
        have h2 : some g = some file := by simpa [hg] using h
        exact Option.some_injective _ h2
      subst hgf
      simp [hupd]
    · have h' : gs.find? (fun f => f.filename == fname) = some file := by
        simpa [hg] using h
      by_cases hid : g.id = file.id
      · simp [hid, hupd]
      · simp only [hid, if_false]
        simp only [Bool.not_eq_true] at hg
        rw [hg]
        exact ih h'

/-- Saving over an existing document appends exactly one version for that
document, numbered prior-count + 1. -/
theorem docVersions_saveFile_found (s : Store) (fname c : String) (file : FileDoc)
    (hfind : s.files.find? (fun f => f.filename == fname) = some file) :
    docVersions (saveFile s fname c).1 file.id =
      docVersions s file.id ++ [(docVersions s file.id).length + 1] := by
  simp [saveFile, hfind, docVersions, List.filter_append]

/-- Saving over an existing document keeps the (same-id) updated document as
the first match for the filename. -/
theorem saveFile_find?_found (s : Store) (fname c : String) (file : FileDoc)
    (hfind : s.files.find? (fun f => f.filename == fname) = some file) :
    (saveFile s fname c).1.files.find? (fun f => f.filename == fname) =
      some { file with content := c, lastModified := s.now } := by
  have hmem := List.find?_some hfind
  simp only [saveFile, hfind]
  exact find?_map_update fname file { file with content := c, lastModified := s.now } hmem s.files hfind

/-- Invariant: if the version numbers for a present document are exactly
`1, …, k`, then after any further sequence of saves to its filename they are
exactly `1, …, k + (number of saves)`. -/
theorem seqSaves_docVersions (fname : String) :
    ∀ (cs : List String) (s : Store) (file : FileDoc) (k : Nat),
      s.files.find? (fun f => f.filename == fname) = some file →
      docVersions s file.id = List.range' 1 k →
      docVersions (seqSaves s fname cs) file.id = List.range' 1 (k + cs.length) := by
  intro cs
  induction cs with
  | nil => intro s file k _ hv; simpa using hv
  | cons c cs ih =>
    intro s file k hf hv
    have hstep : docVersions (saveFile s fname c).1 file.id = List.range' 1 (k + 1) := by
      rw [docVersions_saveFile_found s fname c file hf, hv, List.length_range',
        List.range'_concat]
      simp [Nat.add_comm]
    have hfind' := saveFile_find?_found s fname c file hf
    have hrec := ih (saveFile s fname c).1 { file with content := c, lastModified := s.now }
      (k + 1) hfind' hstep
    have harith : k + 1 + cs.length = k + (c :: cs).length := by
      simp [List.length_cons]; omega
    rw [show seqSaves s fname (c :: cs) = seqSaves (saveFile s fname c).1 fname cs from rfl,
      ← harith]
    exact hrec

/-- C1: starting from a store with no document of the given filename (and no
stray versions on the id the new document will receive), a sequence of
sequential saves numbers the versions of that document exactly 1, 2, 3, … in
call order — the k-th overwriting save creates version k — and the version
numbers present are strictly increasing. -/
theorem saveFile_sequential_versions (s0 : Store) (fname c : String) (cs : List String)
    (H1 : ∀ f ∈ s0.files, f.filename ≠ fname)
    (H2 : ∀ v ∈ s0.versions, v.fileId ≠ s0.nextId) :
    docVersions (seqSaves s0 fname (c :: cs)) s0.nextId = List.range' 1 cs.length ∧
    List.Chain' (fun a b => a < b) (docVersions (seqSaves s0 fname (c :: cs)) s0.nextId) := by
  have hnone : s0.files.find? (fun f => f.filename == fname) = none := by
    rw [List.find?_eq_none]
    intro x hx
    simpa using H1 x hx
  have hfind1 : (saveFile s0 fname c).1.files.find? (fun f => f.filename == fname) =
      some { id := s0.nextId, filename := fname, content := c, lastModified := s0.now } := by
    simp only [saveFile, hnone]
    rw [List.find?_append, hnone]
    simp [List.find?_cons]
  have hv1 : docVersions (saveFile s0 fname c).1
      ({ id := s0.nextId, filename := fname, content := c, lastModified := s0.now } : FileDoc).id =
      List.range' 1 0 := by
    simp only [saveFile, hnone, docVersions]
    have : s0.versions.filter (fun v => v.fileId == s0.nextId) = [] := by
      rw [List.filter_eq_nil_iff]
      intro v hv
      simpa using H2 v hv
    simp [this]
  have hmain := seqSaves_docVersions fname cs (saveFile s0 fname c).1
    { id := s0.nextId, filename := fname, content := c, lastModified := s0.now } 0 hfind1 hv1
  have hfinal : docVersions (seqSaves s0 fname (c :: cs)) s0.nextId = List.range' 1 cs.length := by
    rw [show seqSaves s0 fname (c :: cs) = seqSaves (saveFile s0 fname c).1 fname cs from rfl]
    simpa using hmain
  exact ⟨hfinal, by rw [hfinal]; exact (List.pairwise_lt_range' 1 cs.length).chain'⟩

/-- C5: cleaning a response consisting of code wrapped in fence markers with a
language tag yields exactly the inner code, with no backtick-fence characters
remaining. -/
theorem cleanResponse_fenced :
    cleanResponse fencedJava = "foo();" ∧
    (cleanResponse fencedJava).data.all (fun c => !(isTick c)) = true := by
  constructor <;> decide

/-- One loop iteration with a successful attempt returns the post-processed
response. -/
theorem completionGo_step_success (endpoint : Nat → Option String) (post : String → String)
    (maxR fuel retries attempts : Nat) (delays : List Nat) (raw : String)
    (h : endpoint retries = some raw) :
    completionGo endpoint post maxR (fuel + 1) retries attempts delays =
      { result := post raw, attempts := attempts + 1, delays := delays } := by
  simp [completionGo, h]

/-- One loop iteration with a failed attempt and remaining budget delays
1000 ms and retries. -/
theorem completionGo_step_fail (endpoint : Nat → Option String) (post : String → String)
    (maxR fuel retries attempts : Nat) (delays : List Nat)
    (h : endpoint retries = none) (hf : fuel ≠ 0) :
    completionGo endpoint post maxR (fuel + 1) retries attempts delays =
      completionGo endpoint post maxR fuel (retries + 1) (attempts + 1) (delays ++ [1000]) := by
  simp [completionGo, h, hf]

/-- When every attempt fails, the loop returns the sentinel error string (and
never an exception — the embedding is a total function into `CompletionTrace`). -/
theorem completionGo_all_fail (endpoint : Nat → Option String) (post : String → String)
    (maxR : Nat) (hall : ∀ n, endpoint n = none) :
    ∀ (fuel retries attempts : Nat) (delays : List Nat), fuel ≠ 0 →
      (completionGo endpoint post maxR fuel retries attempts delays).result =
        completionErrMsg maxR := by
  intro fuel
  induction fuel with
  | zero => intro r a d h; exact absurd rfl h
  | succ f ih =>
    intro r a d _
    by_cases hf : f = 0
    · subst hf; simp [completionGo, hall r]
    · rw [completionGo_step_fail endpoint post maxR f r a d (hall r) hf]
      exact ih (r + 1) (a + 1) (d ++ [1000]) hf

/-- C3: with maxRetries = 3 and an endpoint failing on the first two attempts
and succeeding on the third, exactly 3 attempts are made, a 1000 ms (≥ 1 s)
delay precedes attempt 2 and attempt 3, and the cleaned successful response is
returned; when every attempt fails the sentinel error string is returned
through the very same `String` success channel, so only string inspection can
distinguish the two outcomes. -/
theorem getAICodeCompletion_retry_behavior (endpoint : String → Nat → Option String)
    (content prompt language : String) (isVoicePrompt : Bool) (raw : String)
    (h0 : endpoint (ollamaPrompt content prompt language isVoicePrompt) 0 = none)
    (h1 : endpoint (ollamaPrompt content prompt language isVoicePrompt) 1 = none)
    (h2 : endpoint (ollamaPrompt content prompt language isVoicePrompt) 2 = some raw) :
    (getAICodeCompletionOllama endpoint content prompt language isVoicePrompt none).attempts = 3 ∧
    (getAICodeCompletionOllama endpoint content prompt language isVoicePrompt none).delays =
      [1000, 1000] ∧
    (∀ d ∈ (getAICodeCompletionOllama endpoint content prompt language isVoicePrompt
      none).delays, 1000 ≤ d) ∧
    (getAICodeCompletionOllama endpoint content prompt language isVoicePrompt none).result =
      cleanResponse raw ∧
    (∀ endpoint2 : String → Nat → Option String, (∀ p n, endpoint2 p n = none) →
      (getAICodeCompletionOllama endpoint2 content prompt language isVoicePrompt none).result =
        completionErrMsg 3) := by
  have key : getAICodeCompletionOllama endpoint content prompt language isVoicePrompt none =
      { result := cleanResponse raw, attempts := 3, delays := [1000, 1000] } := by
    show completionGo _ _ 3 (2 + 1) 0 0 [] = _
    rw [completionGo_step_fail _ _ _ _ _ _ _ h0 (by decide)]
    show completionGo _ _ 3 (1 + 1) 1 1 [1000] = _
    rw [completionGo_step_fail _ _ _ _ _ _ _ h1 (by decide)]
    show completionGo _ _ 3 (0 + 1) 2 2 [1000, 1000] = _
    rw [completionGo_step_success _ _ _ _ _ _ _ _ h2]
    rfl
  refine ⟨by simp [key], by simp [key], by simp [key], by simp [key], ?_⟩
  intro endpoint2 hall2
  exact completionGo_all_fail _ _ 3 (fun n => hall2 _ n) 3 0 0 [] (by decide)

/-- C10: the completion operation is total at its interface — the embedding
returns a `CompletionTrace` whose `result` is a plain `String`, every attempt
failure being consumed inside the loop — and when every attempt fails the
returned string is the sentinel naming the variant's maxRetries constant
(3 for the Ollama variant, 100 for the Gemini variant). -/
theorem getAICodeCompletion_total (endpoint : String → Nat → Option String)
    (content prompt language : String) (isVoicePrompt : Bool) (cursorPosition : Option Nat)
    (hall : ∀ p n, endpoint p n = none) :
    (getAICodeCompletionOllama endpoint content prompt language isVoicePrompt
        cursorPosition).result = completionErrMsg 3 ∧
    (getAICodeCompletionGemini endpoint content prompt language).result =
      completionErrMsg 100 := by
  constructor
  · exact completionGo_all_fail _ _ 3 (fun n => hall _ n) 3 0 0 [] (by decide)
  · exact completionGo_all_fail _ _ 100 (fun n => hall _ n) 100 0 0 [] (by decide)

/-- C4: a broadcast delivers the message to exactly the open sessions —
pointwise, every open session's inbox is extended by the message and every
non-open session is left untouched (same length, same order, no fault) — and
in particular with 3 sessions of which one is closed, exactly the 2 open ones
receive it. -/
theorem broadcastToAll_fanout :
    (∀ (clients : List (Client String)) (message : String),
      List.Forall₂ (fun c c' =>
          c'.readyState = c.readyState ∧
          c'.inbox = (if c.readyState = ReadyState.opened
            then c.inbox ++ [message] else c.inbox))
        clients (broadcastToAll clients message)) ∧
    broadcastToAll wSessions wMsg =
      [{ readyState := ReadyState.opened, inbox := [wMsg] },
       { readyState := ReadyState.closed, inbox := [] },
       { readyState := ReadyState.opened, inbox := [wMsg] }] := by
  constructor
  · intro clients message
    rw [broadcastToAll, List.forall₂_map_right_iff]
    rw [List.forall₂_same]
    intro c _
    by_cases h : c.readyState = ReadyState.opened
    · simp [h]
    · simp [h]
  · decide

/-- C6: the file listing fails open — on any store error it returns the empty
list instead of propagating the fault, and on success it returns every stored
filename in store order.  It is a total function: no error ever reaches the
caller. -/
theorem getFiles_fails_open :
    (∀ e : DbFault, getFiles (Except.error e) = []) ∧
    (∀ files : List FileDoc, getFiles (Except.ok files) = files.map (fun f => f.filename)) :=
  ⟨fun _ => rfl, fun _ => rfl⟩

/-- Filtering twice with one predicate equals filtering once. -/
theorem filter_self_idem {α : Type} (p : α → Bool) (l : List α) :
    (l.filter p).filter p = l.filter p :=
  List.filter_eq_self.mpr (fun _ ha => List.of_mem_filter ha)

/-- A left fold by `Nat.min` is bounded by its initial accumulator. -/
theorem foldl_min_le_init : ∀ (rest : List Nat) (a : Nat), rest.foldl Nat.min a ≤ a := by
  intro rest
  induction rest with
  | nil => intro a; exact Nat.le_refl a
  | cons b bs ih =>
    intro a
    exact Nat.le_trans (ih (Nat.min a b)) (Nat.min_le_left a b)

/-- A left fold by `Nat.min` is bounded by every folded element. -/
theorem foldl_min_le_mem : ∀ (rest : List Nat) (a x : Nat), x ∈ rest → rest.foldl Nat.min a ≤ x := by
  intro rest
  induction rest with
  | nil => intro a x hx; cases hx
  | cons b bs ih =>
    intro a x hx
    rcases List.mem_cons.mp hx with h | h
    · subst h
      exact Nat.le_trans (foldl_min_le_init bs (Nat.min a x)) (Nat.min_le_right a x)
    · exact ih (Nat.min a b) x h

/-- `jsMin` is a lower bound of its (non-empty) argument list. -/
theorem jsMin_le_of_mem (xs : List Nat) (x : Nat) (hx : x ∈ xs) : jsMin xs ≤ x := by
  cases xs with
  | nil => cases hx
  | cons a rest =>
    rcases List.mem_cons.mp hx with h | h
    · subst h; exact foldl_min_le_init rest x
    · exact foldl_min_le_mem rest a x h

/-- Taking no more characters than the leading run satisfying `p` yields only
characters satisfying `p`. -/
theorem take_all_of_le_takeWhile {α : Type} (p : α → Bool) :
    ∀ (l : List α) (n : Nat), n ≤ (l.takeWhile p).length → (l.take n).all p = true := by
  intro l
  induction l with
  | nil => intro n h; simp at h; subst h; rfl
  | cons c cs ih =>
    intro n h
    cases n with
    | zero => rfl
    | succ k =>
      by_cases hp : p c = true
      · simp [List.takeWhile_cons, hp, Nat.succ_le_succ_iff] at h
        simp only [List.take_succ_cons, List.all_cons, hp, Bool.true_and]
        exact ih k h
      · simp [List.takeWhile_cons, hp] at h

/-- C7 counterexample: the code drops the interior blank line, so the snippet
is NOT otherwise unchanged — reflow of "a\n\nb" yields "a\nb" whereas the
claimed behavior preserves the blank line. -/
theorem formatCode_counterexample :
    formatCode wSnippet = "a\nb" ∧
    formatCodeClaimed wSnippet = wSnippet ∧
    formatCode wSnippet ≠ formatCodeClaimed wSnippet := by
  refine ⟨?_, ?_, ?_⟩ <;> decide

/-- C7 (amended): legacy reflow removes every blank line, and emits the
remaining (non-blank) lines in order, each with exactly the minimum
indentation — measured over all non-blank lines — removed; the removed prefix
of every line consists of whitespace only, so the relative indentation of the
non-blank lines is preserved at a common baseline. -/
theorem formatCode_amended (code : String) :
    formatCode code =
      String.mk (joinNl ((nonBlankLines code).map
        (fun l => l.drop (jsMin ((nonBlankLines code).map leadingWsCount))))) ∧
    (∀ l ∈ nonBlankLines code,
      jsMin ((nonBlankLines code).map leadingWsCount) ≤ leadingWsCount l) ∧
    (∀ l ∈ nonBlankLines code,
      (l.take (jsMin ((nonBlankLines code).map leadingWsCount))).all isJsSpace = true) := by
  refine ⟨?_, ?_, ?_⟩
  · simp only [formatCode, nonBlankLines]
    rw [filter_self_idem]
  · intro l hl
    exact jsMin_le_of_mem _ _ (List.mem_map_of_mem leadingWsCount hl)
  · intro l hl
    exact take_all_of_le_takeWhile isJsSpace l _
      (jsMin_le_of_mem _ _ (List.mem_map_of_mem leadingWsCount hl))

/-- C9: listVersions fails with NotFound when the document is absent, and
otherwise returns (version number, timestamp) of every version of the
document, in descending version order — strictly descending whenever the
document's version numbers are pairwise distinct, which sequential saves
guarantee. -/
theorem getFileVersions_spec (s : Store) (fname : String) :
    (s.files.find? (fun f => f.filename == fname) = none →
      getFileVersions s fname = Except.error DbFault.notFound) ∧
    (∀ file : FileDoc, s.files.find? (fun f => f.filename == fname) = some file →
      ∃ out : List (Nat × Nat),
        getFileVersions s fname = Except.ok out ∧
        out.Perm ((s.versions.filter (fun v => v.fileId == file.id)).map
          (fun v => (v.version, v.timestamp))) ∧
        out.Chain' (fun a b => b.1 ≤ a.1) ∧
        ((s.versions.filter (fun v => v.fileId == file.id)).Pairwise
            (fun v w => v.version ≠ w.version) →
          out.Chain' (fun a b => b.1 < a.1))) := by
  constructor
  · intro hnone
    simp [getFileVersions, hnone]
  · intro file hsome
    refine ⟨(sortVersionsDesc (s.versions.filter (fun v => v.fileId == file.id))).map
      (fun v => (v.version, v.timestamp)), ?_, ?_, ?_, ?_⟩
    · simp [getFileVersions, hsome]
    · exact (List.perm_insertionSort versionGe _).map _
    · refine List.Pairwise.chain' ?_
      rw [List.pairwise_map]
      exact List.sorted_insertionSort versionGe _
    · intro hnd
      refine List.Pairwise.chain' ?_
      rw [List.pairwise_map]
      have hsorted : (sortVersionsDesc (s.versions.filter
          (fun v => v.fileId == file.id))).Pairwise versionGe :=
        List.sorted_insertionSort versionGe _
      have hne : (sortVersionsDesc (s.versions.filter
          (fun v => v.fileId == file.id))).Pairwise (fun v w => v.version ≠ w.version) :=
        ((List.perm_insertionSort versionGe _).pairwise_iff (fun h => h.symm)).mpr hnd
      exact (hsorted.and hne).imp (fun h => Nat.lt_of_le_of_ne h.1 (Ne.symm h.2))

/-- C8: a message whose type tag is none of the six recognized ones causes no
action at all — no handler runs, nothing is sent to anybody, no broadcast
happens, no fault is raised, and the shared text buffer, the store and every
session are left exactly as they were. -/
theorem handleMessage_unknown_tag (endpoint : String → Nat → Option String)
    (s : RouterState) (sender : Nat) (msg : InMsg)
    (h1 : msg.type ≠ "UPDATE_TEXT") (h2 : msg.type ≠ "SAVE_FILE")
    (h3 : msg.type ≠ "GET_FILES") (h4 : msg.type ≠ "LOAD_FILE")
    (h5 : msg.type ≠ "LOAD_VERSION") (h6 : msg.type ≠ "AI_CODE_COMPLETION") :
    handleMessage endpoint s sender msg = (s, none) := by
  simp [handleMessage, h1, h2, h3, h4, h5, h6]

theorem saveFile_case_spec_witness :
    (wStoreNone.files.find? (fun f => f.filename == wName) = none ∧
      ((saveFile wStoreNone wName wNew).1.versions = wStoreNone.versions ∧
       ∃ doc : FileDoc,
         (saveFile wStoreNone wName wNew).1.files = wStoreNone.files ++ [doc] ∧
         doc.filename = wName ∧ doc.content = wNew ∧
         doc.lastModified = wStoreNone.now ∧
         (saveFile wStoreNone wName wNew).2 = doc)) ∧
    (wStoreSome.files.find? (fun f => f.filename == wName) = some wFile ∧
      ((∃ v : VersionDoc,
         (saveFile wStoreSome wName wNew).1.versions = wStoreSome.versions ++ [v] ∧
         v.content = wFile.content ∧ v.fileId = wFile.id ∧
         v.version = (wStoreSome.versions.filter (fun w => w.fileId == wFile.id)).length + 1) ∧
       ((saveFile wStoreSome wName wNew).2.content = wNew ∧
        (saveFile wStoreSome wName wNew).2.lastModified = wStoreSome.now ∧
        (saveFile wStoreSome wName wNew).2.id = wFile.id ∧
        (saveFile wStoreSome wName wNew).2.filename = wFile.filename) ∧
       (saveFile wStoreSome wName wNew).1.files =
         wStoreSome.files.map
           (fun f => if f.id = wFile.id then (saveFile wStoreSome wName wNew).2 else f))) :=
  ⟨⟨by decide, (saveFile_case_spec wStoreNone wName wNew).1 (by decide)⟩,
   ⟨by decide, (saveFile_case_spec wStoreSome wName wNew).2 wFile (by decide)⟩⟩

theorem saveFile_sequential_versions_witness :
    (∀ f ∈ wStoreNone.files, f.filename ≠ wName) ∧
    (∀ v ∈ wStoreNone.versions, v.fileId ≠ wStoreNone.nextId) ∧
    (docVersions (seqSaves wStoreNone wName (wNew :: wTail)) wStoreNone.nextId =
        List.range' 1 wTail.length ∧
      List.Chain' (fun a b => a < b)
        (docVersions (seqSaves wStoreNone wName (wNew :: wTail)) wStoreNone.nextId)) :=
  ⟨by simp [wStoreNone], by simp [wStoreNone],
    saveFile_sequential_versions wStoreNone wName wNew wTail
      (by simp [wStoreNone]) (by simp [wStoreNone])⟩

theorem getAICodeCompletion_retry_behavior_witness :
    (wEndpoint (ollamaPrompt wNew wName wName false) 0 = none ∧
     wEndpoint (ollamaPrompt wNew wName wName false) 1 = none ∧
     wEndpoint (ollamaPrompt wNew wName wName false) 2 = some wRaw) ∧
    ((getAICodeCompletionOllama wEndpoint wNew wName wName false none).attempts = 3 ∧
     (getAICodeCompletionOllama wEndpoint wNew wName wName false none).delays = [1000, 1000] ∧
     (∀ d ∈ (getAICodeCompletionOllama wEndpoint wNew wName wName false none).delays,
        1000 ≤ d) ∧
     (getAICodeCompletionOllama wEndpoint wNew wName wName false none).result =
        cleanResponse wRaw ∧
     (∀ endpoint2 : String → Nat → Option String, (∀ p n, endpoint2 p n = none) →
        (getAICodeCompletionOllama endpoint2 wNew wName wName false none).result =
          completionErrMsg 3)) :=
  ⟨⟨rfl, rfl, rfl⟩,
    getAICodeCompletion_retry_behavior wEndpoint wNew wName wName false wRaw rfl rfl rfl⟩

theorem getFileVersions_spec_witness :
    (wStoreNone.files.find? (fun f => f.filename == wName) = none ∧
      getFileVersions wStoreNone wName = Except.error DbFault.notFound) ∧
    (wStoreVers.files.find? (fun f => f.filename == wName) = some wFile ∧
      ∃ out : List (Nat × Nat),
        getFileVersions wStoreVers wName = Except.ok out ∧
        out.Perm ((wStoreVers.versions.filter (fun v => v.fileId == wFile.id)).map
          (fun v => (v.version, v.timestamp))) ∧
        out.Chain' (fun a b => b.1 ≤ a.1) ∧
        ((wStoreVers.versions.filter (fun v => v.fileId == wFile.id)).Pairwise
            (fun v w => v.version ≠ w.version) →
          out.Chain' (fun a b => b.1 < a.1))) :=
  ⟨⟨by decide, (getFileVersions_spec wStoreNone wName).1 (by decide)⟩,
   ⟨by decide, (getFileVersions_spec wStoreVers wName).2 wFile (by decide)⟩⟩

theorem handleMessage_unknown_tag_witness :
    (pingMsg.type ≠ "UPDATE_TEXT" ∧ pingMsg.type ≠ "SAVE_FILE" ∧
     pingMsg.type ≠ "GET_FILES" ∧ pingMsg.type ≠ "LOAD_FILE" ∧
     pingMsg.type ≠ "LOAD_VERSION" ∧ pingMsg.type ≠ "AI_CODE_COMPLETION") ∧
    handleMessage (fun _ _ => none) wRouterState 0 pingMsg = (wRouterState, none) :=
  ⟨⟨by decide, by decide, by decide, by decide, by decide, by decide⟩,
    handleMessage_unknown_tag (fun _ _ => none) wRouterState 0 pingMsg
      (by decide) (by decide) (by decide) (by decide) (by decide) (by decide)⟩

theorem getAICodeCompletion_total_witness :
    (∀ p n, (fun (_ : String) (_ : Nat) => (none : Option String)) p n = none) ∧
    ((getAICodeCompletionOllama (fun _ _ => none) wNew wName wName false none).result =
        completionErrMsg 3 ∧
     (getAICodeCompletionGemini (fun _ _ => none) wNew wName wName).result =
        completionErrMsg 100) :=
  ⟨fun _ _ => rfl,
    getAICodeCompletion_total (fun _ _ => none) wNew wName wName false none (fun _ _ => rfl)⟩

theorem formatCode_amended_witness :
    formatCode wSnippet =
      String.mk (joinNl ((nonBlankLines wSnippet).map
        (fun l => l.drop (jsMin ((nonBlankLines wSnippet).map leadingWsCount))))) ∧
    (∀ l ∈ nonBlankLines wSnippet,
      jsMin ((nonBlankLines wSnippet).map leadingWsCount) ≤ leadingWsCount l) ∧
    (∀ l ∈ nonBlankLines wSnippet,
      (l.take (jsMin ((nonBlankLines wSnippet).map leadingWsCount))).all isJsSpace = true) :=
  formatCode_amended wSnippet

end Collab



